import Mathlib

/-!
Verification of the Monte Carlo equity-curve simulation engine
(`src/equity_simulation.py`).

The simulation block (lines 89-148 of the source) is embedded shallowly:

* machine floats become exact rationals `ℚ`;
* the stream of `np.random.rand()` draws becomes an explicit function
  `rng : ℕ → ℚ`, where draw `k` of a trial is `rng k` (and the ensemble
  gives each trial its own slice of the stream);
* the per-trial mutable variables (`balance`, `balances`, `max_consec_win`,
  `max_consec_loss`, `current_win`, `current_loss`, `peak`, `max_dd`)
  become the fields of an explicit state record threaded through a fold;
* the `numpy` reductions (`np.max`, `np.min`, `np.argmax`, `np.argmin`,
  `np.argsort`, `np.median`, `np.mean`) are modelled by executable list
  functions with the library's documented semantics (first index for
  `argmax`/`argmin`, stable ascending sort for `argsort`, interpolated
  median, arithmetic mean), and Python's `int()` truncation toward zero
  becomes `pyInt`.

Parameters keep the units of the source widgets: `win_rate` and
`risk_per_trade` are percentages (the code divides by 100 at each use),
so the spec's fractional `winRate` is `win_rate / 100` and its fractional
`riskPerTrade` is `risk_per_trade / 100`.
-/

namespace EquitySim

/-- The user inputs consumed by the simulation block (source lines 57-62).
`win_rate` and `risk_per_trade` are percentages, as in the input widgets. -/
structure SimParams where
  win_rate : ℚ
  risk_reward : ℚ
  risk_per_trade : ℚ
  n_trades : ℕ
  initial_capital : ℚ

/-- The per-trial mutable variables of source lines 96-104, as one record. -/
structure TrialState where
  balance : ℚ
  balances : List ℚ
  max_consec_win : ℕ
  max_consec_loss : ℕ
  current_win : ℕ
  current_loss : ℕ
  peak : ℚ
  max_dd : ℚ
  deriving DecidableEq

/-- Initialisation before the trade loop (source lines 96-104). -/
def initState (p : SimParams) : TrialState :=
  { balance := p.initial_capital
    balances := [p.initial_capital]
    max_consec_win := 0
    max_consec_loss := 0
    current_win := 0
    current_loss := 0
    peak := p.initial_capital
    max_dd := 0 }

/-- `win = np.random.rand() < win_rate / 100` (source line 107), with the
draw `u` made explicit. -/
def isWin (p : SimParams) (u : ℚ) : Bool := decide (u < p.win_rate / 100)

/-- One iteration of the trade loop (source lines 106-123): classify the
draw as a win or a loss, compound the balance, update the streak counters,
the running peak and the maximum drawdown, and append the new balance. -/
def tradeStep (p : SimParams) (u : ℚ) (s : TrialState) : TrialState :=
  let win := isWin p u
  let balance :=
    if win then s.balance * (1 + (p.risk_per_trade / 100) * p.risk_reward)
    else s.balance * (1 - p.risk_per_trade / 100)
  let current_win := if win then s.current_win + 1 else 0
  let current_loss := if win then 0 else s.current_loss + 1
  let max_consec_win :=
    if win then max s.max_consec_win (s.current_win + 1) else s.max_consec_win
  let max_consec_loss :=
    if win then s.max_consec_loss else max s.max_consec_loss (s.current_loss + 1)
  let peak := max s.peak balance
  let dd := (peak - balance) / peak
  let max_dd := max s.max_dd dd
  { balance := balance
    balances := s.balances ++ [balance]
    max_consec_win := max_consec_win
    max_consec_loss := max_consec_loss
    current_win := current_win
    current_loss := current_loss
    peak := peak
    max_dd := max_dd }

/-- The state after the first `n` iterations of the trade loop, draw `k`
being `rng k`. -/
def runTrialSteps (p : SimParams) (rng : ℕ → ℚ) (n : ℕ) : TrialState :=
  (List.range n).foldl (fun s k => tradeStep p (rng k) s) (initState p)

/-- One full trial: the inner loop of source lines 95-128 run for
`n_trades` iterations. -/
def runSingleTrial (p : SimParams) (rng : ℕ → ℚ) : TrialState :=
  runTrialSteps p rng p.n_trades

/-! ### Closed-form recurrences for the components of the trial state

These recurrences restate, one variable at a time, what the loop body does;
`runTrialSteps_spec` proves that the folded loop equals them. -/

/-- Balance after `k` trades. -/
def balAfter (p : SimParams) (rng : ℕ → ℚ) : ℕ → ℚ
  | 0 => p.initial_capital
  | k + 1 =>
    if isWin p (rng k) then
      balAfter p rng k * (1 + (p.risk_per_trade / 100) * p.risk_reward)
    else
      balAfter p rng k * (1 - p.risk_per_trade / 100)

/-- Current win streak after `k` trades. -/
def curWinAfter (p : SimParams) (rng : ℕ → ℚ) : ℕ → ℕ
  | 0 => 0
  | k + 1 => if isWin p (rng k) then curWinAfter p rng k + 1 else 0

/-- Current loss streak after `k` trades. -/
def curLossAfter (p : SimParams) (rng : ℕ → ℚ) : ℕ → ℕ
  | 0 => 0
  | k + 1 => if isWin p (rng k) then 0 else curLossAfter p rng k + 1

/-- Longest win streak seen in the first `k` trades. -/
def maxWinAfter (p : SimParams) (rng : ℕ → ℚ) : ℕ → ℕ
  | 0 => 0
  | k + 1 =>
    if isWin p (rng k) then max (maxWinAfter p rng k) (curWinAfter p rng k + 1)
    else maxWinAfter p rng k

/-- Longest loss streak seen in the first `k` trades. -/
def maxLossAfter (p : SimParams) (rng : ℕ → ℚ) : ℕ → ℕ
  | 0 => 0
  | k + 1 =>
    if isWin p (rng k) then maxLossAfter p rng k
    else max (maxLossAfter p rng k) (curLossAfter p rng k + 1)

/-- Running peak after `k` trades. -/
def peakAfter (p : SimParams) (rng : ℕ → ℚ) : ℕ → ℚ
  | 0 => p.initial_capital
  | k + 1 => max (peakAfter p rng k) (balAfter p rng (k + 1))

/-- Maximum drawdown seen in the first `k` trades. -/
def maxDDAfter (p : SimParams) (rng : ℕ → ℚ) : ℕ → ℚ
  | 0 => 0
  | k + 1 =>
    max (maxDDAfter p rng k)
      ((peakAfter p rng (k + 1) - balAfter p rng (k + 1)) / peakAfter p rng (k + 1))

/-! ### Models of the `numpy` reductions and Python `int()`

The ensemble-reduction lines 130-148 of the source call numpy library
functions; these executable list functions model their documented
semantics on the exact rationals of the embedding. -/

/-- `np.max` on a (nonempty) 1-d array. -/
def npMax (xs : List ℚ) : ℚ :=
  match xs with
  | [] => 0
  | h :: t => t.foldl max h

/-- `np.min` on a (nonempty) 1-d array. -/
def npMin (xs : List ℚ) : ℚ :=
  match xs with
  | [] => 0
  | h :: t => t.foldl min h

/-- `np.argmax`: the first index attaining the maximum. -/
def npArgmax (xs : List ℚ) : ℕ :=
  xs.findIdx (fun x => decide (x = npMax xs))

/-- `np.argmin`: the first index attaining the minimum. -/
def npArgmin (xs : List ℚ) : ℕ :=
  xs.findIdx (fun x => decide (x = npMin xs))

/-- `np.argsort`: the indices `0, …, n-1` sorted so that the values they
point to are ascending (ties kept in index order). -/
def npArgsort (xs : List ℚ) : List ℕ :=
  List.insertionSort (fun i j => xs.getD i 0 ≤ xs.getD j 0) (List.range xs.length)

/-- `np.median`: middle element of the sorted values for odd length, the
average of the two middle elements for even length. -/
def npMedian (xs : List ℚ) : ℚ :=
  let s := List.insertionSort (fun a b => a ≤ b) xs
  if xs.length % 2 = 1 then s.getD (xs.length / 2) 0
  else (s.getD (xs.length / 2 - 1) 0 + s.getD (xs.length / 2) 0) / 2

/-- `np.mean`: arithmetic mean. -/
def npMean (xs : List ℚ) : ℚ := xs.sum / xs.length

/-- Python `int()` on a rational: truncation toward zero. -/
def pyInt (q : ℚ) : ℤ := q.num / (q.den : ℤ)

/-! ### Ensemble reduction (source lines 130-148)

The reduction is defined over an arbitrary list `results` of balance
trajectories, exactly as the source operates on its `results` array;
`runEnsemble` below instantiates it with the generated trials. -/

/-- `end_balances = results[:, -1]`: the final balance of each trial. -/
def end_balances (results : List (List ℚ)) : List ℚ :=
  results.map (fun bs => bs.getLastD 0)

/-- `best_result = np.max(end_balances)` (source line 133). -/
def best_result (results : List (List ℚ)) : ℚ := npMax (end_balances results)

/-- `worst_result = np.min(end_balances)` (source line 134). -/
def worst_result (results : List (List ℚ)) : ℚ := npMin (end_balances results)

/-- `median_result = np.median(end_balances)` (source line 135). -/
def median_result (results : List (List ℚ)) : ℚ := npMedian (end_balances results)

/-- `best_path = results[np.argmax(end_balances)]` (source line 137). -/
def best_path (results : List (List ℚ)) : List ℚ :=
  results.getD (npArgmax (end_balances results)) []

/-- `worst_path = results[np.argmin(end_balances)]` (source line 138). -/
def worst_path (results : List (List ℚ)) : List ℚ :=
  results.getD (npArgmin (end_balances results)) []

/-- `median_path = results[np.argsort(end_balances)[len(end_balances)//2]]`
(source line 139). -/
def median_path (results : List (List ℚ)) : List ℚ :=
  results.getD ((npArgsort (end_balances results)).getD
    ((end_balances results).length / 2) 0) []

/-- `best_return = (best_result / initial_capital - 1) * 100` (line 141). -/
def best_return (results : List (List ℚ)) (initial_capital : ℚ) : ℚ :=
  (best_result results / initial_capital - 1) * 100

/-- `worst_return = (worst_result / initial_capital - 1) * 100` (line 142). -/
def worst_return (results : List (List ℚ)) (initial_capital : ℚ) : ℚ :=
  (worst_result results / initial_capital - 1) * 100

/-- `median_return = (median_result / initial_capital - 1) * 100` (line 143). -/
def median_return (results : List (List ℚ)) (initial_capital : ℚ) : ℚ :=
  (median_result results / initial_capital - 1) * 100

/-- `expectancy_r = ((win_rate / 100) * risk_reward) - ((1 - win_rate / 100) * 1)`
(source line 145). -/
def expectancy_r (p : SimParams) : ℚ :=
  ((p.win_rate / 100) * p.risk_reward) - ((1 - p.win_rate / 100) * 1)

/-- `n_simulations = 1000` (source line 89): the ensemble size is a
hardcoded constant, not a parameter. -/
def n_simulations : ℕ := 1000

/-- The outer loop of source lines 95-128: `n_simulations` trials, trial
`i` consuming its own slice of the shared random stream. -/
def ensembleTrials (p : SimParams) (rng : ℕ → ℚ) : List TrialState :=
  (List.range n_simulations).map
    (fun i => runSingleTrial p (fun j => rng (i * p.n_trades + j)))

/-- The aggregate quantities the source computes and displays
(lines 130-148). -/
structure SimulationResult where
  best_result : ℚ
  worst_result : ℚ
  median_result : ℚ
  best_path : List ℚ
  worst_path : List ℚ
  median_path : List ℚ
  best_return : ℚ
  worst_return : ℚ
  median_return : ℚ
  expectancy_r : ℚ
  avg_drawdown : ℚ
  avg_max_win : ℤ
  avg_max_loss : ℤ

/-- The whole simulation block (source lines 89-148): run the ensemble and
reduce it. -/
def runEnsemble (p : SimParams) (rng : ℕ → ℚ) : SimulationResult :=
  let trials := ensembleTrials p rng
  let results := trials.map (fun t => t.balances)
  let drawdowns := trials.map (fun t => t.max_dd)
  let consecutive_wins_list := trials.map (fun t => (t.max_consec_win : ℚ))
  let consecutive_losses_list := trials.map (fun t => (t.max_consec_loss : ℚ))
  { best_result := best_result results
    worst_result := worst_result results
    median_result := median_result results
    best_path := best_path results
    worst_path := worst_path results
    median_path := median_path results
    best_return := best_return results p.initial_capital
    worst_return := worst_return results p.initial_capital
    median_return := median_return results p.initial_capital
    expectancy_r := expectancy_r p
    avg_drawdown := npMean drawdowns * 100
    avg_max_win := pyInt (npMean consecutive_wins_list)
    avg_max_loss := pyInt (npMean consecutive_losses_list) }


/-! ### Concrete inputs used in the closed instances below -/

/-- A small valid parameter set (50% win rate, 1:2 reward, 1% risk,
2 trades, 10000 capital). -/
def pWitness : SimParams :=
  { win_rate := 50, risk_reward := 2, risk_per_trade := 1, n_trades := 2,
    initial_capital := 10000 }

/-- A valid parameter set with zero win rate. -/
def pAllLoss : SimParams :=
  { win_rate := 0, risk_reward := 2, risk_per_trade := 1, n_trades := 2,
    initial_capital := 10000 }

/-- A valid parameter set with 100% win rate. -/
def pAllWin : SimParams :=
  { win_rate := 100, risk_reward := 2, risk_per_trade := 1, n_trades := 2,
    initial_capital := 10000 }

/-- An invalid parameter set: `risk_per_trade = 200`, i.e. the spec's
`riskPerTrade` is `200 / 100 = 2 ≥ 1`. -/
def pInvalid : SimParams :=
  { win_rate := 0, risk_reward := 2, risk_per_trade := 200, n_trades := 1,
    initial_capital := 100 }

/-- A deterministic random stream: every draw is 0. -/
def rngZero : ℕ → ℚ := fun _ => 0

/-- A deterministic random stream: every draw is 1/2. -/
def rngHalf : ℕ → ℚ := fun _ => 1 / 2

/-- Same win rate and reward ratio as `pWitness`, but different risk,
trade count and capital. -/
def pWitness2 : SimParams :=
  { win_rate := 50, risk_reward := 2, risk_per_trade := 3, n_trades := 7,
    initial_capital := 5000 }

/-- A two-trial ensemble (final balances 10 and 20) on which the
rank-picked median path and the interpolated median statistic disagree. -/
def rsDiverge : List (List ℚ) := [[10], [20]]

/-- The three-trial ensemble of the spec's §8 concrete scenario (final
balances 9000, 11000, 10000). -/
def rsThree : List (List ℚ) := [[9000], [11000], [10000]]

theorem runTrialSteps_succ (p : SimParams) (rng : ℕ → ℚ) (n : ℕ) :
    runTrialSteps p rng (n + 1) = tradeStep p (rng n) (runTrialSteps p rng n) := by
  unfold runTrialSteps
  rw [List.range_succ, List.foldl_append, List.foldl_cons, List.foldl_nil]

/-- The loop state after `n` iterations, component by component. -/
theorem runTrialSteps_spec (p : SimParams) (rng : ℕ → ℚ) (n : ℕ) :
    runTrialSteps p rng n =
      { balance := balAfter p rng n
        balances := (List.range (n + 1)).map (balAfter p rng)
        max_consec_win := maxWinAfter p rng n
        max_consec_loss := maxLossAfter p rng n
        current_win := curWinAfter p rng n
        current_loss := curLossAfter p rng n
        peak := peakAfter p rng n
        max_dd := maxDDAfter p rng n } := by
  induction n with
  | zero =>
    simp [runTrialSteps, initState, balAfter, curWinAfter, curLossAfter,
      maxWinAfter, maxLossAfter, peakAfter, maxDDAfter, List.range_succ]
  | succ n ih =>
    rw [runTrialSteps_succ, ih]
    unfold tradeStep
    rcases h : isWin p (rng n) with _ | _ <;>
      simp only [h, Bool.false_eq_true, if_true, if_false] <;>
      refine TrialState.mk.injEq .. ▸ ?_ <;>
      refine ⟨?_, ?_, ?_, ?_, ?_, ?_, ?_, ?_⟩ <;>
      simp [balAfter, curWinAfter, curLossAfter, maxWinAfter, maxLossAfter,
        peakAfter, maxDDAfter, h, List.range_succ]

/-! ### Projections of the loop state -/

theorem runTrialSteps_balances (p : SimParams) (rng : ℕ → ℚ) (n : ℕ) :
    (runTrialSteps p rng n).balances = (List.range (n + 1)).map (balAfter p rng) := by
  rw [runTrialSteps_spec]

theorem runTrialSteps_balance (p : SimParams) (rng : ℕ → ℚ) (n : ℕ) :
    (runTrialSteps p rng n).balance = balAfter p rng n := by
  rw [runTrialSteps_spec]

theorem runTrialSteps_peak (p : SimParams) (rng : ℕ → ℚ) (n : ℕ) :
    (runTrialSteps p rng n).peak = peakAfter p rng n := by
  rw [runTrialSteps_spec]

theorem runTrialSteps_max_dd (p : SimParams) (rng : ℕ → ℚ) (n : ℕ) :
    (runTrialSteps p rng n).max_dd = maxDDAfter p rng n := by
  rw [runTrialSteps_spec]

theorem runTrialSteps_max_consec_win (p : SimParams) (rng : ℕ → ℚ) (n : ℕ) :
    (runTrialSteps p rng n).max_consec_win = maxWinAfter p rng n := by
  rw [runTrialSteps_spec]

theorem runTrialSteps_max_consec_loss (p : SimParams) (rng : ℕ → ℚ) (n : ℕ) :
    (runTrialSteps p rng n).max_consec_loss = maxLossAfter p rng n := by
  rw [runTrialSteps_spec]

theorem getD_map_range (f : ℕ → ℚ) (n k : ℕ) (hk : k < n) :
    ((List.range n).map f).getD k 0 = f k := by
  have hk2 : k < ((List.range n).map f).length := by simpa using hk
  rw [List.getD_eq_getElem _ _ hk2]
  simp

/-- Every balance appearing in a trial path is a `balAfter` value. -/
theorem mem_balances_iff (p : SimParams) (rng : ℕ → ℚ) (n : ℕ) (b : ℚ) :
    b ∈ (runTrialSteps p rng n).balances ↔ ∃ k ≤ n, b = balAfter p rng k := by
  rw [runTrialSteps_balances]
  simp only [List.mem_map, List.mem_range]
  constructor
  · rintro ⟨k, hk, rfl⟩
    exact ⟨k, by omega, rfl⟩
  · rintro ⟨k, hk, rfl⟩
    exact ⟨k, by omega, rfl⟩

/-! ### Positivity and monotonicity facts about the balance recurrence -/

theorem balAfter_pos (p : SimParams) (rng : ℕ → ℚ)
    (hic : 0 < p.initial_capital) (hr0 : 0 < p.risk_per_trade / 100)
    (hr1 : p.risk_per_trade / 100 < 1) (hrr : 0 < p.risk_reward) :
    ∀ k, 0 < balAfter p rng k := by
  intro k
  induction k with
  | zero => exact hic
  | succ k ih =>
    rw [balAfter]
    have hwf : (0 : ℚ) < 1 + p.risk_per_trade / 100 * p.risk_reward := by nlinarith
    have hlf : (0 : ℚ) < 1 - p.risk_per_trade / 100 := by linarith
    rcases h : isWin p (rng k) with _ | _
    · simpa [h] using mul_pos ih hlf
    · simpa [h] using mul_pos ih hwf

theorem balAfter_all_loss (p : SimParams) (rng : ℕ → ℚ)
    (hw : p.win_rate = 0) (hu : ∀ k, 0 ≤ rng k) :
    ∀ k, balAfter p rng k = p.initial_capital * (1 - p.risk_per_trade / 100) ^ k := by
  have hwin : ∀ k, isWin p (rng k) = false := by
    intro k
    simp only [isWin, hw, zero_div, decide_eq_false_iff_not, not_lt]
    exact hu k
  intro k
  induction k with
  | zero => simp [balAfter]
  | succ k ih => rw [balAfter, hwin k, if_neg (by simp), ih, pow_succ]; ring

theorem runSingleTrial_balances (p : SimParams) (rng : ℕ → ℚ) :
    (runSingleTrial p rng).balances =
      (List.range (p.n_trades + 1)).map (balAfter p rng) :=
  runTrialSteps_balances p rng p.n_trades

theorem runSingleTrial_balance (p : SimParams) (rng : ℕ → ℚ) :
    (runSingleTrial p rng).balance = balAfter p rng p.n_trades :=
  runTrialSteps_balance p rng p.n_trades

theorem runSingleTrial_max_dd (p : SimParams) (rng : ℕ → ℚ) :
    (runSingleTrial p rng).max_dd = maxDDAfter p rng p.n_trades :=
  runTrialSteps_max_dd p rng p.n_trades

theorem runSingleTrial_max_consec_win (p : SimParams) (rng : ℕ → ℚ) :
    (runSingleTrial p rng).max_consec_win = maxWinAfter p rng p.n_trades :=
  runTrialSteps_max_consec_win p rng p.n_trades

theorem runSingleTrial_max_consec_loss (p : SimParams) (rng : ℕ → ℚ) :
    (runSingleTrial p rng).max_consec_loss = maxLossAfter p rng p.n_trades :=
  runTrialSteps_max_consec_loss p rng p.n_trades

theorem mem_singleTrial_balances (p : SimParams) (rng : ℕ → ℚ) (b : ℚ) :
    b ∈ (runSingleTrial p rng).balances ↔ ∃ k ≤ p.n_trades, b = balAfter p rng k :=
  mem_balances_iff p rng p.n_trades b

/-! ### Peak and drawdown facts -/

theorem peakAfter_ge_initial (p : SimParams) (rng : ℕ → ℚ) :
    ∀ k, p.initial_capital ≤ peakAfter p rng k := by
  intro k
  induction k with
  | zero => exact le_refl _
  | succ k ih => exact le_trans ih (le_max_left _ _)

theorem balAfter_le_peakAfter (p : SimParams) (rng : ℕ → ℚ) :
    ∀ k, balAfter p rng k ≤ peakAfter p rng k := by
  intro k
  cases k with
  | zero => exact le_refl _
  | succ k => exact le_max_right _ _

theorem maxDDAfter_nonneg (p : SimParams) (rng : ℕ → ℚ) :
    ∀ k, 0 ≤ maxDDAfter p rng k := by
  intro k
  induction k with
  | zero => exact le_refl _
  | succ k ih => exact le_trans ih (le_max_left _ _)

theorem maxDDAfter_le_one (p : SimParams) (rng : ℕ → ℚ)
    (hic : 0 < p.initial_capital) (hr0 : 0 < p.risk_per_trade / 100)
    (hr1 : p.risk_per_trade / 100 < 1) (hrr : 0 < p.risk_reward) :
    ∀ k, maxDDAfter p rng k ≤ 1 := by
  intro k
  induction k with
  | zero => rw [maxDDAfter]; norm_num
  | succ k ih =>
    rw [maxDDAfter]
    refine max_le ih ?_
    have hpk : 0 < peakAfter p rng (k + 1) :=
      lt_of_lt_of_le hic (peakAfter_ge_initial p rng (k + 1))
    rw [div_le_one hpk]
    have hb : 0 < balAfter p rng (k + 1) := balAfter_pos p rng hic hr0 hr1 hrr (k + 1)
    linarith

theorem peakAfter_eq_of_monotone (p : SimParams) (rng : ℕ → ℚ) (n : ℕ)
    (hmo : ∀ i < n, balAfter p rng i ≤ balAfter p rng (i + 1)) :
    ∀ k ≤ n, peakAfter p rng k = balAfter p rng k := by
  intro k hk
  induction k with
  | zero => rfl
  | succ k ih =>
    rw [peakAfter, ih (by omega), max_eq_right (hmo k (by omega))]

theorem maxDDAfter_eq_zero_of_monotone (p : SimParams) (rng : ℕ → ℚ) (n : ℕ)
    (hic : 0 < p.initial_capital)
    (hmo : ∀ i < n, balAfter p rng i ≤ balAfter p rng (i + 1)) :
    ∀ k ≤ n, maxDDAfter p rng k = 0 := by
  intro k hk
  induction k with
  | zero => rfl
  | succ k ih =>
    rw [maxDDAfter, ih (by omega),
      peakAfter_eq_of_monotone p rng n hmo (k + 1) hk]
    simp

/-! ### Streak-counter facts -/

theorem curWinAfter_le (p : SimParams) (rng : ℕ → ℚ) :
    ∀ k, curWinAfter p rng k ≤ k := by
  intro k
  induction k with
  | zero => exact le_refl _
  | succ k ih =>
    simp only [curWinAfter]
    rcases h : isWin p (rng k) with _ | _ <;> simp [h] <;> omega

theorem curLossAfter_le (p : SimParams) (rng : ℕ → ℚ) :
    ∀ k, curLossAfter p rng k ≤ k := by
  intro k
  induction k with
  | zero => exact le_refl _
  | succ k ih =>
    simp only [curLossAfter]
    rcases h : isWin p (rng k) with _ | _ <;> simp [h] <;> omega

theorem maxWinAfter_le (p : SimParams) (rng : ℕ → ℚ) :
    ∀ k, maxWinAfter p rng k ≤ k := by
  intro k
  induction k with
  | zero => exact le_refl _
  | succ k ih =>
    simp only [maxWinAfter]
    have hc := curWinAfter_le p rng k
    rcases h : isWin p (rng k) with _ | _ <;> simp [h] <;> omega

theorem maxLossAfter_le (p : SimParams) (rng : ℕ → ℚ) :
    ∀ k, maxLossAfter p rng k ≤ k := by
  intro k
  induction k with
  | zero => exact le_refl _
  | succ k ih =>
    simp only [maxLossAfter]
    have hc := curLossAfter_le p rng k
    rcases h : isWin p (rng k) with _ | _ <;> simp [h] <;> omega

theorem maxWinAfter_mono (p : SimParams) (rng : ℕ → ℚ) :
    Monotone (maxWinAfter p rng) := by
  apply monotone_nat_of_le_succ
  intro k
  simp only [maxWinAfter]
  rcases h : isWin p (rng k) with _ | _ <;> simp [h] <;> omega

theorem maxLossAfter_mono (p : SimParams) (rng : ℕ → ℚ) :
    Monotone (maxLossAfter p rng) := by
  apply monotone_nat_of_le_succ
  intro k
  simp only [maxLossAfter]
  rcases h : isWin p (rng k) with _ | _ <;> simp [h] <;> omega

theorem streak_at_one (p : SimParams) (rng : ℕ → ℚ) :
    1 ≤ maxWinAfter p rng 1 ∨ 1 ≤ maxLossAfter p rng 1 := by
  rcases h : isWin p (rng 0) with _ | _
  · right
    simp [maxLossAfter, curLossAfter, h]
  · left
    simp [maxWinAfter, curWinAfter, h]

/-! ### Facts about the numpy models -/

theorem foldl_max_mem (t : List ℚ) (a : ℚ) :
    t.foldl max a = a ∨ t.foldl max a ∈ t := by
  induction t generalizing a with
  | nil => exact Or.inl rfl
  | cons b t ih =>
    rw [List.foldl_cons]
    rcases ih (max a b) with h | h
    · rcases max_choice a b with hm | hm
      · exact Or.inl (by rw [h, hm])
      · exact Or.inr (by rw [h, hm]; exact List.mem_cons_self _ _)
    · exact Or.inr (List.mem_cons_of_mem _ h)

theorem le_foldl_max (t : List ℚ) (a : ℚ) :
    a ≤ t.foldl max a ∧ ∀ x ∈ t, x ≤ t.foldl max a := by
  induction t generalizing a with
  | nil => exact ⟨le_refl _, by simp⟩
  | cons b t ih =>
    obtain ⟨h1, h2⟩ := ih (max a b)
    rw [List.foldl_cons]
    refine ⟨le_trans (le_max_left a b) h1, ?_⟩
    intro x hx
    rcases List.mem_cons.mp hx with rfl | hx
    · exact le_trans (le_max_right a x) h1
    · exact h2 x hx

theorem foldl_min_mem (t : List ℚ) (a : ℚ) :
    t.foldl min a = a ∨ t.foldl min a ∈ t := by
  induction t generalizing a with
  | nil => exact Or.inl rfl
  | cons b t ih =>
    rw [List.foldl_cons]
    rcases ih (min a b) with h | h
    · rcases min_choice a b with hm | hm
      · exact Or.inl (by rw [h, hm])
      · exact Or.inr (by rw [h, hm]; exact List.mem_cons_self _ _)
    · exact Or.inr (List.mem_cons_of_mem _ h)

theorem foldl_min_le (t : List ℚ) (a : ℚ) :
    t.foldl min a ≤ a ∧ ∀ x ∈ t, t.foldl min a ≤ x := by
  induction t generalizing a with
  | nil => exact ⟨le_refl _, by simp⟩
  | cons b t ih =>
    obtain ⟨h1, h2⟩ := ih (min a b)
    rw [List.foldl_cons]
    refine ⟨le_trans h1 (min_le_left a b), ?_⟩
    intro x hx
    rcases List.mem_cons.mp hx with rfl | hx
    · exact le_trans h1 (min_le_right a x)
    · exact h2 x hx

theorem npMax_mem (xs : List ℚ) (h : xs ≠ []) : npMax xs ∈ xs := by
  match xs with
  | [] => exact absurd rfl h
  | a :: t =>
    simp only [npMax]
    rcases foldl_max_mem t a with h1 | h1
    · rw [h1]; exact List.mem_cons_self _ _
    · exact List.mem_cons_of_mem _ h1

theorem le_npMax (xs : List ℚ) (x : ℚ) (hx : x ∈ xs) : x ≤ npMax xs := by
  match xs with
  | [] => simp at hx
  | a :: t =>
    simp only [npMax]
    rcases List.mem_cons.mp hx with rfl | hx
    · exact (le_foldl_max t x).1
    · exact (le_foldl_max t a).2 x hx

theorem npMin_mem (xs : List ℚ) (h : xs ≠ []) : npMin xs ∈ xs := by
  match xs with
  | [] => exact absurd rfl h
  | a :: t =>
    simp only [npMin]
    rcases foldl_min_mem t a with h1 | h1
    · rw [h1]; exact List.mem_cons_self _ _
    · exact List.mem_cons_of_mem _ h1

theorem npMin_le (xs : List ℚ) (x : ℚ) (hx : x ∈ xs) : npMin xs ≤ x := by
  match xs with
  | [] => simp at hx
  | a :: t =>
    simp only [npMin]
    rcases List.mem_cons.mp hx with rfl | hx
    · exact (foldl_min_le t x).1
    · exact (foldl_min_le t a).2 x hx

theorem npArgmax_lt_length (xs : List ℚ) (h : xs ≠ []) :
    npArgmax xs < xs.length :=
  List.findIdx_lt_length_of_exists ⟨npMax xs, npMax_mem xs h, by simp⟩

theorem getElem_npArgmax (xs : List ℚ) (h : npArgmax xs < xs.length) :
    xs.get ⟨npArgmax xs, h⟩ = npMax xs := by
  have hf : (fun x => decide (x = npMax xs)) (xs.get ⟨npArgmax xs, h⟩) = true :=
    List.findIdx_getElem (w := h)
  simpa using hf

theorem npArgmin_lt_length (xs : List ℚ) (h : xs ≠ []) :
    npArgmin xs < xs.length :=
  List.findIdx_lt_length_of_exists ⟨npMin xs, npMin_mem xs h, by simp⟩

theorem getElem_npArgmin (xs : List ℚ) (h : npArgmin xs < xs.length) :
    xs.get ⟨npArgmin xs, h⟩ = npMin xs := by
  have hf : (fun x => decide (x = npMin xs)) (xs.get ⟨npArgmin xs, h⟩) = true :=
    List.findIdx_getElem (w := h)
  simpa using hf

theorem npArgsort_perm_range (xs : List ℚ) :
    (npArgsort xs).Perm (List.range xs.length) :=
  List.perm_insertionSort _ _

theorem npArgsort_length (xs : List ℚ) : (npArgsort xs).length = xs.length := by
  rw [(npArgsort_perm_range xs).length_eq, List.length_range]

theorem mem_npArgsort_lt (xs : List ℚ) (i : ℕ) (h : i ∈ npArgsort xs) :
    i < xs.length := by
  have h2 := (npArgsort_perm_range xs).mem_iff.mp h
  simpa using h2

theorem map_getD_range (xs : List ℚ) :
    (List.range xs.length).map (fun i => xs.getD i 0) = xs := by
  apply List.ext_getElem
  · simp
  · intro n h1 h2
    simp only [List.getElem_map, List.getElem_range]
    rw [List.getD_eq_getElem _ _ h2]

theorem npArgsort_map_perm (xs : List ℚ) :
    ((npArgsort xs).map (fun i => xs.getD i 0)).Perm xs := by
  have h := (npArgsort_perm_range xs).map (fun i => xs.getD i 0)
  rwa [map_getD_range xs] at h

theorem npArgsort_map_sorted (xs : List ℚ) :
    ((npArgsort xs).map (fun i => xs.getD i 0)).Sorted (fun a b => a ≤ b) := by
  have ht : IsTotal ℕ (fun i j => xs.getD i 0 ≤ xs.getD j 0) :=
    ⟨fun i j => le_total _ _⟩
  have htr : IsTrans ℕ (fun i j => xs.getD i 0 ≤ xs.getD j 0) :=
    ⟨fun a b c hab hbc => le_trans hab hbc⟩
  have hs := List.sorted_insertionSort
    (fun i j => xs.getD i 0 ≤ xs.getD j 0) (List.range xs.length)
  exact List.pairwise_map.mpr hs

/-- Any ascending-sorted permutation of `xs` equals the value sequence laid
out by `npArgsort xs`. -/
theorem sorted_perm_eq_argsort_map (xs s : List ℚ) (hp : s.Perm xs)
    (hs : s.Sorted (fun a b => a ≤ b)) :
    s = (npArgsort xs).map (fun i => xs.getD i 0) :=
  List.eq_of_perm_of_sorted (hp.trans (npArgsort_map_perm xs).symm) hs
    (npArgsort_map_sorted xs)

/-- Any ascending-sorted permutation of `xs` equals `insertionSort` of
`xs`. -/
theorem sorted_perm_eq_insertionSort (xs s : List ℚ) (hp : s.Perm xs)
    (hs : s.Sorted (fun a b => a ≤ b)) :
    s = List.insertionSort (fun a b => a ≤ b) xs :=
  List.eq_of_perm_of_sorted (hp.trans (List.perm_insertionSort _ xs).symm) hs
    (List.sorted_insertionSort _ xs)

/-- `npMedian` in terms of any ascending-sorted permutation of the data. -/
theorem npMedian_eq_of_sorted_perm (xs s : List ℚ) (hp : s.Perm xs)
    (hs : s.Sorted (fun a b => a ≤ b)) :
    npMedian xs =
      (if xs.length % 2 = 1 then s.getD (xs.length / 2) 0
       else (s.getD (xs.length / 2 - 1) 0 + s.getD (xs.length / 2) 0) / 2) := by
  rw [npMedian, ← sorted_perm_eq_insertionSort xs s hp hs]

theorem end_balances_length (results : List (List ℚ)) :
    (end_balances results).length = results.length := by
  simp [end_balances]

theorem end_balances_ne_nil (results : List (List ℚ)) (h : results ≠ []) :
    end_balances results ≠ [] := by
  simp [end_balances, h]

theorem getD_end_balances (results : List (List ℚ)) (i : ℕ)
    (h : i < results.length) :
    (end_balances results).getD i 0 = (results.getD i []).getLastD 0 := by
  have h2 : i < (end_balances results).length := by
    rwa [end_balances_length]
  rw [List.getD_eq_getElem _ _ h2, List.getD_eq_getElem _ _ h]
  simp [end_balances]

theorem best_path_spec (results : List (List ℚ)) (hne : results ≠ []) :
    best_path results ∈ results ∧
    (best_path results).getLastD 0 = best_result results := by
  have hne2 := end_balances_ne_nil results hne
  have hlt : npArgmax (end_balances results) < (end_balances results).length :=
    npArgmax_lt_length _ hne2
  have hlt2 : npArgmax (end_balances results) < results.length := by
    rwa [end_balances_length] at hlt
  constructor
  · rw [best_path, List.getD_eq_getElem _ _ hlt2]
    exact List.getElem_mem _
  · rw [best_path, best_result, List.getD_eq_getElem _ _ hlt2]
    have hmax := getElem_npArgmax (end_balances results) hlt
    rw [List.get_eq_getElem] at hmax
    rw [← hmax]
    simp [end_balances]

theorem worst_path_spec (results : List (List ℚ)) (hne : results ≠ []) :
    worst_path results ∈ results ∧
    (worst_path results).getLastD 0 = worst_result results := by
  have hne2 := end_balances_ne_nil results hne
  have hlt : npArgmin (end_balances results) < (end_balances results).length :=
    npArgmin_lt_length _ hne2
  have hlt2 : npArgmin (end_balances results) < results.length := by
    rwa [end_balances_length] at hlt
  constructor
  · rw [worst_path, List.getD_eq_getElem _ _ hlt2]
    exact List.getElem_mem _
  · rw [worst_path, worst_result, List.getD_eq_getElem _ _ hlt2]
    have hmin := getElem_npArgmin (end_balances results) hlt
    rw [List.get_eq_getElem] at hmin
    rw [← hmin]
    simp [end_balances]

theorem median_path_last (results : List (List ℚ)) (hne : results ≠ [])
    (s : List ℚ) (hp : s.Perm (end_balances results))
    (hs : s.Sorted (fun a b => a ≤ b)) :
    (median_path results).getLastD 0 = s.getD (results.length / 2) 0 := by
  have hnlen : 0 < results.length := List.length_pos.mpr hne
  have hlen := end_balances_length results
  have hhalf : (end_balances results).length / 2 <
      (npArgsort (end_balances results)).length := by
    rw [npArgsort_length, hlen]
    omega
  have hidx_eq : (npArgsort (end_balances results)).getD
        ((end_balances results).length / 2) 0 =
      (npArgsort (end_balances results)).get
        ⟨(end_balances results).length / 2, hhalf⟩ := by
    rw [List.getD_eq_getElem _ _ hhalf, List.get_eq_getElem]
  have hmem : (npArgsort (end_balances results)).get
        ⟨(end_balances results).length / 2, hhalf⟩ ∈
      npArgsort (end_balances results) := List.get_mem _ _ _
  have hidx_lt : (npArgsort (end_balances results)).getD
      ((end_balances results).length / 2) 0 < results.length := by
    rw [hidx_eq, ← hlen]
    exact mem_npArgsort_lt _ _ hmem
  have hsm := sorted_perm_eq_argsort_map (end_balances results) s hp hs
  have hjm : (end_balances results).length / 2 <
      ((npArgsort (end_balances results)).map
        (fun i => (end_balances results).getD i 0)).length := by
    rw [List.length_map]
    exact hhalf
  rw [median_path]
  calc (results.getD ((npArgsort (end_balances results)).getD
          ((end_balances results).length / 2) 0) []).getLastD 0
      = (end_balances results).getD ((npArgsort (end_balances results)).getD
          ((end_balances results).length / 2) 0) 0 :=
        (getD_end_balances results _ hidx_lt).symm
    _ = ((npArgsort (end_balances results)).map
          (fun i => (end_balances results).getD i 0)).getD
          ((end_balances results).length / 2) 0 := by
        rw [List.getD_eq_getElem _ _ hjm, List.getElem_map, hidx_eq,
          List.get_eq_getElem]
    _ = s.getD ((end_balances results).length / 2) 0 := by rw [← hsm]
    _ = s.getD (results.length / 2) 0 := by rw [hlen]

theorem median_result_eq (results : List (List ℚ)) (s : List ℚ)
    (hp : s.Perm (end_balances results))
    (hs : s.Sorted (fun a b => a ≤ b)) :
    median_result results =
      (if results.length % 2 = 1 then s.getD (results.length / 2) 0
       else (s.getD (results.length / 2 - 1) 0 +
         s.getD (results.length / 2) 0) / 2) := by
  rw [median_result, npMedian_eq_of_sorted_perm _ s hp hs, end_balances_length]

/-! ### Claim theorems -/

/-- C1: in `runSingleTrial`, trade step `i` is a win exactly when its
uniform draw `rng i` is strictly less than `winRate` (= `win_rate / 100`);
on a win the balance is multiplied by `1 + riskPerTrade * riskRewardRatio`
and on a loss by `1 - riskPerTrade` (with `riskPerTrade` =
`risk_per_trade / 100`), for every trade step of every trial and all
parameters. -/
theorem claim_C1_trade_step_rule (p : SimParams) (rng : ℕ → ℚ) (i : ℕ)
    (hi : i < p.n_trades) :
    (isWin p (rng i) = true ↔ rng i < p.win_rate / 100) ∧
    (runSingleTrial p rng).balances.getD (i + 1) 0 =
      (if rng i < p.win_rate / 100 then
        (runSingleTrial p rng).balances.getD i 0 *
          (1 + (p.risk_per_trade / 100) * p.risk_reward)
      else
        (runSingleTrial p rng).balances.getD i 0 *
          (1 - p.risk_per_trade / 100)) := by
  constructor
  · simp [isWin]
  · rw [runSingleTrial_balances, getD_map_range _ _ _ (by omega),
      getD_map_range _ _ _ (by omega)]
    by_cases h : rng i < p.win_rate / 100
    · rw [if_pos h]
      simp only [balAfter]
      rw [if_pos (by simpa [isWin] using h)]
    · rw [if_neg h]
      simp only [balAfter]
      rw [if_neg (by simpa [isWin] using h)]

/-- Closed instance of C1: the parameters `pWitness`, the all-zero draw
stream and trade step 0. -/
theorem claim_C1_witness :
    (0 : ℕ) < pWitness.n_trades ∧
    ((isWin pWitness (rngZero 0) = true ↔ rngZero 0 < pWitness.win_rate / 100) ∧
      (runSingleTrial pWitness rngZero).balances.getD 1 0 =
        (if rngZero 0 < pWitness.win_rate / 100 then
          (runSingleTrial pWitness rngZero).balances.getD 0 0 *
            (1 + (pWitness.risk_per_trade / 100) * pWitness.risk_reward)
        else
          (runSingleTrial pWitness rngZero).balances.getD 0 0 *
            (1 - pWitness.risk_per_trade / 100))) :=
  ⟨by decide, claim_C1_trade_step_rule pWitness rngZero 0 (by decide)⟩

/-- C2: for valid parameters (positive capital, `riskPerTrade` =
`risk_per_trade / 100` strictly between 0 and 1, positive reward ratio),
every trial path has length `numTrades + 1`, starts at `initialCapital`,
and all its balances are strictly positive. -/
theorem claim_C2_path_invariants (p : SimParams) (rng : ℕ → ℚ)
    (hic : 0 < p.initial_capital) (hr0 : 0 < p.risk_per_trade / 100)
    (hr1 : p.risk_per_trade / 100 < 1) (hrr : 0 < p.risk_reward) :
    (runSingleTrial p rng).balances.length = p.n_trades + 1 ∧
    (runSingleTrial p rng).balances.headD 0 = p.initial_capital ∧
    ∀ b ∈ (runSingleTrial p rng).balances, 0 < b := by
  refine ⟨?_, ?_, ?_⟩
  · rw [runSingleTrial_balances]
    simp
  · rw [runSingleTrial_balances, List.range_succ_eq_map]
    simp [balAfter]
  · intro b hb
    rw [mem_singleTrial_balances] at hb
    obtain ⟨k, hk, rfl⟩ := hb
    exact balAfter_pos p rng hic hr0 hr1 hrr k

/-- Closed instance of C2 at `pWitness` and the all-zero draw stream. -/
theorem claim_C2_witness :
    (0 : ℚ) < pWitness.initial_capital ∧
    (0 : ℚ) < pWitness.risk_per_trade / 100 ∧
    pWitness.risk_per_trade / 100 < 1 ∧
    (0 : ℚ) < pWitness.risk_reward ∧
    ((runSingleTrial pWitness rngZero).balances.length = pWitness.n_trades + 1 ∧
      (runSingleTrial pWitness rngZero).balances.headD 0 = pWitness.initial_capital ∧
      ∀ b ∈ (runSingleTrial pWitness rngZero).balances, 0 < b) :=
  ⟨by norm_num [pWitness], by norm_num [pWitness], by norm_num [pWitness],
    by norm_num [pWitness],
    claim_C2_path_invariants pWitness rngZero (by norm_num [pWitness])
      (by norm_num [pWitness]) (by norm_num [pWitness]) (by norm_num [pWitness])⟩

/-- C6 counterexample: the claim says invalid parameters make the engine
fail fast with an InvalidParameter error and return no result. The code
contains no validation: at `pInvalid` (whose `riskPerTrade` is `2 ≥ 1`) the
simulation block runs to completion and returns the full path
`[100, -100]`, i.e. a degenerate result with a negative balance instead of
an error. -/
theorem claim_C6_counterexample :
    (1 : ℚ) ≤ pInvalid.risk_per_trade / 100 ∧
    (runSingleTrial pInvalid rngHalf).balances = [100, -100] ∧
    (runSingleTrial pInvalid rngHalf).balances.length = pInvalid.n_trades + 1 ∧
    (-100 : ℚ) < 0 := by
  have hpath : (runSingleTrial pInvalid rngHalf).balances = [100, -100] := by
    have h1 : runSingleTrial pInvalid rngHalf =
        tradeStep pInvalid (rngHalf 0) (runTrialSteps pInvalid rngHalf 0) :=
      runTrialSteps_succ pInvalid rngHalf 0
    rw [h1]
    norm_num [runTrialSteps, tradeStep, initState, isWin, pInvalid, rngHalf]
  refine ⟨by norm_num [pInvalid], hpath, ?_, by norm_num⟩
  rw [hpath]
  rfl

/-- C6 amended: the engine performs no parameter validation and never
signals an InvalidParameter error; it is total and returns a complete
`numTrades + 1`-length path for every input, including invalid ones (on
which the output is degenerate, e.g. negative balances for
`riskPerTrade ≥ 1`). Range enforcement exists only in the UI input
widgets, outside the engine. -/
theorem claim_C6_amended_no_validation (p : SimParams) (rng : ℕ → ℚ) :
    (runSingleTrial p rng).balances.length = p.n_trades + 1 := by
  rw [runSingleTrial_balances]
  simp

/-- C7 counterexample: the claim says the number of trials equals a
supplied `numSimulations` parameter (defaulting to 1000). In the code
`n_simulations = 1000` is a hardcoded constant and `SimParams` has no such
field, so a caller asking for, say, 5 simulations still gets 1000 trials:
the trial count is 1000, not 5, whatever the supplied parameters are. -/
theorem claim_C7_counterexample :
    (ensembleTrials pWitness rngZero).length = 1000 ∧ (1000 : ℕ) ≠ 5 := by
  constructor
  · simp [ensembleTrials, n_simulations]
  · decide

/-- C7 amended: `runEnsemble` always runs exactly `n_simulations = 1000`
trials; the ensemble size is hardcoded in the simulation block (source
line 89), not a parameter, though its value coincides with the spec's
stated default of 1000. -/
theorem claim_C7_amended_hardcoded_size (p : SimParams) (rng : ℕ → ℚ) :
    (ensembleTrials p rng).length = n_simulations ∧ n_simulations = 1000 := by
  constructor
  · simp [ensembleTrials]
  · rfl

/-- C8: when `winRate = 0` (and every draw is ≥ 0, as uniform draws in
[0,1) are), every trade is a loss, the path is strictly decreasing, and
the final balance is exactly
`initialCapital * (1 - riskPerTrade) ^ numTrades`, for valid
`riskPerTrade` = `risk_per_trade / 100` in (0,1), positive capital and
positive `numTrades`. -/
theorem claim_C8_zero_win_rate (p : SimParams) (rng : ℕ → ℚ)
    (hw : p.win_rate = 0) (hu : ∀ k, 0 ≤ rng k)
    (hic : 0 < p.initial_capital) (hr0 : 0 < p.risk_per_trade / 100)
    (hr1 : p.risk_per_trade / 100 < 1) (hn : 1 ≤ p.n_trades) :
    (∀ k < p.n_trades, isWin p (rng k) = false) ∧
    (∀ i < p.n_trades,
      (runSingleTrial p rng).balances.getD (i + 1) 0 <
        (runSingleTrial p rng).balances.getD i 0) ∧
    (runSingleTrial p rng).balance =
      p.initial_capital * (1 - p.risk_per_trade / 100) ^ p.n_trades := by
  have hwin : ∀ k, isWin p (rng k) = false := by
    intro k
    simp only [isWin, hw, zero_div, decide_eq_false_iff_not, not_lt]
    exact hu k
  have hbal := balAfter_all_loss p rng hw hu
  refine ⟨fun k _ => hwin k, ?_, ?_⟩
  · intro i hi
    rw [runSingleTrial_balances, getD_map_range _ _ _ (by omega),
      getD_map_range _ _ _ (by omega), hbal, hbal]
    have hc : (0 : ℚ) < 1 - p.risk_per_trade / 100 := by linarith
    have hp : (0 : ℚ) < (1 - p.risk_per_trade / 100) ^ i := pow_pos hc i
    rw [pow_succ]
    nlinarith [mul_pos (mul_pos hic hp) hr0]
  · rw [runSingleTrial_balance, hbal]

/-- Closed instance of C8 at `pAllLoss` (zero win rate) and the all-1/2
draw stream. -/
theorem claim_C8_witness :
    pAllLoss.win_rate = 0 ∧ (∀ k : ℕ, (0 : ℚ) ≤ rngHalf k) ∧
    (0 : ℚ) < pAllLoss.initial_capital ∧
    (0 : ℚ) < pAllLoss.risk_per_trade / 100 ∧
    pAllLoss.risk_per_trade / 100 < 1 ∧ 1 ≤ pAllLoss.n_trades ∧
    ((∀ k < pAllLoss.n_trades, isWin pAllLoss (rngHalf k) = false) ∧
      (∀ i < pAllLoss.n_trades,
        (runSingleTrial pAllLoss rngHalf).balances.getD (i + 1) 0 <
          (runSingleTrial pAllLoss rngHalf).balances.getD i 0) ∧
      (runSingleTrial pAllLoss rngHalf).balance =
        pAllLoss.initial_capital *
          (1 - pAllLoss.risk_per_trade / 100) ^ pAllLoss.n_trades) :=
  ⟨by norm_num [pAllLoss], fun k => by norm_num [rngHalf],
    by norm_num [pAllLoss], by norm_num [pAllLoss], by norm_num [pAllLoss],
    by norm_num [pAllLoss],
    claim_C8_zero_win_rate pAllLoss rngHalf (by norm_num [pAllLoss])
      (fun k => by norm_num [rngHalf]) (by norm_num [pAllLoss])
      (by norm_num [pAllLoss]) (by norm_num [pAllLoss]) (by norm_num [pAllLoss])⟩

/-- C9: for valid parameters the running peak is at least `initialCapital`
(hence strictly positive, so the drawdown division never divides by zero)
at every step of the trial, the per-path max drawdown lies in [0,1], and it
equals 0 for a monotonically non-decreasing path. -/
theorem claim_C9_drawdown_safety (p : SimParams) (rng : ℕ → ℚ)
    (hic : 0 < p.initial_capital) (hr0 : 0 < p.risk_per_trade / 100)
    (hr1 : p.risk_per_trade / 100 < 1) (hrr : 0 < p.risk_reward) :
    (∀ k ≤ p.n_trades, p.initial_capital ≤ (runTrialSteps p rng k).peak ∧
      0 < (runTrialSteps p rng k).peak) ∧
    (0 ≤ (runSingleTrial p rng).max_dd ∧ (runSingleTrial p rng).max_dd ≤ 1) ∧
    ((∀ i < p.n_trades,
        (runSingleTrial p rng).balances.getD i 0 ≤
          (runSingleTrial p rng).balances.getD (i + 1) 0) →
      (runSingleTrial p rng).max_dd = 0) := by
  refine ⟨?_, ⟨?_, ?_⟩, ?_⟩
  · intro k _
    rw [runTrialSteps_peak]
    exact ⟨peakAfter_ge_initial p rng k,
      lt_of_lt_of_le hic (peakAfter_ge_initial p rng k)⟩
  · rw [runSingleTrial_max_dd]
    exact maxDDAfter_nonneg p rng p.n_trades
  · rw [runSingleTrial_max_dd]
    exact maxDDAfter_le_one p rng hic hr0 hr1 hrr p.n_trades
  · intro hmo
    rw [runSingleTrial_max_dd]
    refine maxDDAfter_eq_zero_of_monotone p rng p.n_trades hic ?_ p.n_trades
      (le_refl _)
    intro i hi
    have h := hmo i hi
    rwa [runSingleTrial_balances, getD_map_range _ _ _ (by omega),
      getD_map_range _ _ _ (by omega)] at h

/-- Closed instance of C9 at `pAllWin` and the all-zero draw stream. -/
theorem claim_C9_witness :
    (0 : ℚ) < pAllWin.initial_capital ∧
    (0 : ℚ) < pAllWin.risk_per_trade / 100 ∧
    pAllWin.risk_per_trade / 100 < 1 ∧ (0 : ℚ) < pAllWin.risk_reward ∧
    ((∀ k ≤ pAllWin.n_trades,
        pAllWin.initial_capital ≤ (runTrialSteps pAllWin rngZero k).peak ∧
        0 < (runTrialSteps pAllWin rngZero k).peak) ∧
      (0 ≤ (runSingleTrial pAllWin rngZero).max_dd ∧
        (runSingleTrial pAllWin rngZero).max_dd ≤ 1) ∧
      ((∀ i < pAllWin.n_trades,
          (runSingleTrial pAllWin rngZero).balances.getD i 0 ≤
            (runSingleTrial pAllWin rngZero).balances.getD (i + 1) 0) →
        (runSingleTrial pAllWin rngZero).max_dd = 0)) :=
  ⟨by norm_num [pAllWin], by norm_num [pAllWin], by norm_num [pAllWin],
    by norm_num [pAllWin],
    claim_C9_drawdown_safety pAllWin rngZero (by norm_num [pAllWin])
      (by norm_num [pAllWin]) (by norm_num [pAllWin]) (by norm_num [pAllWin])⟩

/-- C10: for every trial with `numTrades ≥ 1`, the per-path maximum
consecutive-win and consecutive-loss streaks are each at most `numTrades`
(and, being naturals, at least 0), and at least one of the two is ≥ 1
since every trade is classified as exactly one of win or loss. -/
theorem claim_C10_streak_invariants (p : SimParams) (rng : ℕ → ℚ)
    (hn : 1 ≤ p.n_trades) :
    (runSingleTrial p rng).max_consec_win ≤ p.n_trades ∧
    (runSingleTrial p rng).max_consec_loss ≤ p.n_trades ∧
    (1 ≤ (runSingleTrial p rng).max_consec_win ∨
      1 ≤ (runSingleTrial p rng).max_consec_loss) := by
  rw [runSingleTrial_max_consec_win, runSingleTrial_max_consec_loss]
  refine ⟨maxWinAfter_le p rng p.n_trades, maxLossAfter_le p rng p.n_trades, ?_⟩
  rcases streak_at_one p rng with h | h
  · exact Or.inl (le_trans h (maxWinAfter_mono p rng hn))
  · exact Or.inr (le_trans h (maxLossAfter_mono p rng hn))

/-- Closed instance of C10 at `pWitness` and the all-zero draw stream. -/
theorem claim_C10_witness :
    1 ≤ pWitness.n_trades ∧
    ((runSingleTrial pWitness rngZero).max_consec_win ≤ pWitness.n_trades ∧
      (runSingleTrial pWitness rngZero).max_consec_loss ≤ pWitness.n_trades ∧
      (1 ≤ (runSingleTrial pWitness rngZero).max_consec_win ∨
        1 ≤ (runSingleTrial pWitness rngZero).max_consec_loss)) :=
  ⟨by decide, claim_C10_streak_invariants pWitness rngZero (by decide)⟩

/-- C3: `bestPath` is a trial of the ensemble whose final balance is the
maximum of all final balances, `worstPath` one whose final balance is the
minimum; `medianPath`'s final balance is the value at array position
`floor(n/2)` of the final balances sorted ascending (`n` the number of
trials); and `medianEndBalance` (= `median_result`) is the interpolated
statistical median of the final balances — the middle sorted value for odd
`n`, the average of the two middle sorted values for even `n`. -/
theorem claim_C3_ensemble_selection (results : List (List ℚ))
    (hne : results ≠ []) :
    (best_path results ∈ results ∧
      (best_path results).getLastD 0 = best_result results ∧
      ∀ b ∈ end_balances results, b ≤ (best_path results).getLastD 0) ∧
    (worst_path results ∈ results ∧
      (worst_path results).getLastD 0 = worst_result results ∧
      ∀ b ∈ end_balances results, (worst_path results).getLastD 0 ≤ b) ∧
    (∀ s : List ℚ, s.Perm (end_balances results) →
      s.Sorted (fun a b => a ≤ b) →
      (median_path results).getLastD 0 = s.getD (results.length / 2) 0 ∧
      median_result results =
        (if results.length % 2 = 1 then s.getD (results.length / 2) 0
         else (s.getD (results.length / 2 - 1) 0 +
           s.getD (results.length / 2) 0) / 2)) := by
  obtain ⟨hbm, hbl⟩ := best_path_spec results hne
  obtain ⟨hwm, hwl⟩ := worst_path_spec results hne
  refine ⟨⟨hbm, hbl, ?_⟩, ⟨hwm, hwl, ?_⟩, ?_⟩
  · intro b hb
    rw [hbl]
    exact le_npMax _ b hb
  · intro b hb
    rw [hwl]
    exact npMin_le _ b hb
  · intro s hp hs
    exact ⟨median_path_last results hne s hp hs,
      median_result_eq results s hp hs⟩

/-- Closed instance of C3 at the three-trial ensemble `rsThree` of the
spec's §8 scenario. -/
theorem claim_C3_witness :
    rsThree ≠ [] ∧
    ((best_path rsThree ∈ rsThree ∧
      (best_path rsThree).getLastD 0 = best_result rsThree ∧
      ∀ b ∈ end_balances rsThree, b ≤ (best_path rsThree).getLastD 0) ∧
    (worst_path rsThree ∈ rsThree ∧
      (worst_path rsThree).getLastD 0 = worst_result rsThree ∧
      ∀ b ∈ end_balances rsThree, (worst_path rsThree).getLastD 0 ≤ b) ∧
    (∀ s : List ℚ, s.Perm (end_balances rsThree) →
      s.Sorted (fun a b => a ≤ b) →
      (median_path rsThree).getLastD 0 = s.getD (rsThree.length / 2) 0 ∧
      median_result rsThree =
        (if rsThree.length % 2 = 1 then s.getD (rsThree.length / 2) 0
         else (s.getD (rsThree.length / 2 - 1) 0 +
           s.getD (rsThree.length / 2) 0) / 2))) :=
  ⟨by simp [rsThree], claim_C3_ensemble_selection rsThree (by simp [rsThree])⟩

/-- C4: `bestReturn` and `worstReturn` are
`(path final balance / initialCapital - 1) * 100` of the selected best and
worst paths, and `medianReturn` is computed from the interpolated median of
final balances (`medianEndBalance`), not from `medianPath`'s final balance;
on the concrete ensemble `rsDiverge` the two notions indeed differ. -/
theorem claim_C4_returns (results : List (List ℚ)) (ic : ℚ)
    (hne : results ≠ []) :
    best_return results ic = ((best_path results).getLastD 0 / ic - 1) * 100 ∧
    worst_return results ic =
      ((worst_path results).getLastD 0 / ic - 1) * 100 ∧
    (∀ s : List ℚ, s.Perm (end_balances results) →
      s.Sorted (fun a b => a ≤ b) →
      median_return results ic =
        ((if results.length % 2 = 1 then s.getD (results.length / 2) 0
          else (s.getD (results.length / 2 - 1) 0 +
            s.getD (results.length / 2) 0) / 2) / ic - 1) * 100) ∧
    median_return rsDiverge 100 ≠
      ((median_path rsDiverge).getLastD 0 / 100 - 1) * 100 := by
  refine ⟨?_, ?_, ?_, ?_⟩
  · rw [best_return, (best_path_spec results hne).2]
  · rw [worst_return, (worst_path_spec results hne).2]
  · intro s hp hs
    rw [median_return, median_result_eq results s hp hs]
  · have hdiv : median_return rsDiverge 100 = -85 := by
      norm_num [median_return, median_result, npMedian, end_balances, rsDiverge]
    have hpath : (median_path rsDiverge).getLastD 0 = 20 := by
      norm_num [median_path, npArgsort, end_balances, rsDiverge]
    rw [hdiv, hpath]
    norm_num

/-- Closed instance of C4 at `rsThree` and capital 10000. -/
theorem claim_C4_witness :
    rsThree ≠ [] ∧
    (best_return rsThree 10000 =
        ((best_path rsThree).getLastD 0 / 10000 - 1) * 100 ∧
      worst_return rsThree 10000 =
        ((worst_path rsThree).getLastD 0 / 10000 - 1) * 100 ∧
      (∀ s : List ℚ, s.Perm (end_balances rsThree) →
        s.Sorted (fun a b => a ≤ b) →
        median_return rsThree 10000 =
          ((if rsThree.length % 2 = 1 then s.getD (rsThree.length / 2) 0
            else (s.getD (rsThree.length / 2 - 1) 0 +
              s.getD (rsThree.length / 2) 0) / 2) / 10000 - 1) * 100) ∧
      median_return rsDiverge 100 ≠
        ((median_path rsDiverge).getLastD 0 / 100 - 1) * 100) :=
  ⟨by simp [rsThree], claim_C4_returns rsThree 10000 (by simp [rsThree])⟩

/-- C5: the reported expectancy equals
`winRate * riskRewardRatio - (1 - winRate)` (with `winRate` =
`win_rate / 100`) and is a pure function of `win_rate` and `risk_reward`
alone: two runs with equal win rate and reward ratio — whatever their
trade counts, capital, risk and random streams — report equal expectancy. -/
theorem claim_C5_expectancy_pure (p q : SimParams) (r1 r2 : ℕ → ℚ)
    (hw : p.win_rate = q.win_rate) (hr : p.risk_reward = q.risk_reward) :
    (runEnsemble p r1).expectancy_r =
      (p.win_rate / 100) * p.risk_reward - (1 - p.win_rate / 100) ∧
    (runEnsemble p r1).expectancy_r = (runEnsemble q r2).expectancy_r := by
  have h1 : ∀ (pp : SimParams) (rr : ℕ → ℚ),
      (runEnsemble pp rr).expectancy_r = expectancy_r pp := fun _ _ => rfl
  constructor
  · rw [h1]
    simp only [expectancy_r]
    ring
  · rw [h1, h1]
    simp only [expectancy_r]
    rw [hw, hr]

/-- Closed instance of C5 at `pWitness` and `pWitness2` (equal win rate
and reward ratio, different risk, trade count, capital and streams). -/
theorem claim_C5_witness :
    pWitness.win_rate = pWitness2.win_rate ∧
    pWitness.risk_reward = pWitness2.risk_reward ∧
    ((runEnsemble pWitness rngZero).expectancy_r =
        (pWitness.win_rate / 100) * pWitness.risk_reward -
          (1 - pWitness.win_rate / 100) ∧
      (runEnsemble pWitness rngZero).expectancy_r =
        (runEnsemble pWitness2 rngHalf).expectancy_r) :=
  ⟨rfl, rfl, claim_C5_expectancy_pure pWitness pWitness2 rngZero rngHalf rfl rfl⟩

end EquitySim
